import Mathlib

/-
Verification of the EmbroCAD pattern rendering and session/tab engine.

The development shallowly embeds the rendering and session logic of the
EmbroCAD previewer (a Tauri/React application).  Numeric values carried by
stitches, bounds, viewport sizes and scales are modelled as rationals; the
single place where JavaScript's IEEE-754 behaviour on division by zero is
load-bearing (the fit-to-viewport scale on degenerate bounds) is modelled
with an explicit extended-number type `JsNum`.

Sources embedded:
  * the geometry mapping of `renderPattern` (the padded variant),
  * the progressive chunked walk `renderChunk` of the progressive
    `renderPattern`,
  * the one-shot stitch walk of `App.tsx`'s `renderPattern`,
  * the session operations `addNewTab`, `closeTab`, `loadFile`,
    `loadFileInNewTab` and the drag helper `calculateGhostIndex`.
-/

namespace EmbroCAD

/-! ## Data model -/

/-- One stitch command: coordinates in design space plus a command string
(`"STITCH"`, `"MOVE"`, `"COLOR_CHANGE"`, `"END"`, or anything else, which
the renderers ignore). -/
structure Stitch where
  x : ℚ
  y : ℚ
  command : String
deriving DecidableEq

/-- Axis-aligned bounding box of a pattern, field order as in the source. -/
structure Bounds where
  min_x : ℚ
  min_y : ℚ
  max_x : ℚ
  max_y : ℚ
deriving DecidableEq

/-- `Pattern.metadata` as produced by the external parser. -/
structure PatternMeta where
  label : Option String
  stitch_count : Option ℕ
  color_count : Option ℕ
deriving DecidableEq

/-- A parsed pattern.  The session layer never inspects the payload beyond
passing it around, but the fields follow the source interface. -/
structure Pattern where
  stitches : List Stitch
  bounds : Option Bounds
  color_changes : ℕ
  metadata : PatternMeta
deriving DecidableEq

/-! ## Geometry mapping (`renderPattern`, padded variant)

The source computes, from the pattern bounds and a viewport budget:

  patternWidth  = max_x - min_x
  patternHeight = max_y - min_y
  scale = min((viewport - padding*2) / patternWidth,
              (viewport - padding*2) / patternHeight)
  canvas.width  = patternWidth * scale + padding * 2
  canvas.height = patternHeight * scale + padding * 2
  tx(x) = (x - min_x) * scale + padding
  ty(y) = (y - min_y) * scale + padding
-/

/-- Pattern width `max_x - min_x`. -/
def patternWidth (b : Bounds) : ℚ := b.max_x - b.min_x

/-- Pattern height `max_y - min_y`. -/
def patternHeight (b : Bounds) : ℚ := b.max_y - b.min_y

/-- The fit-to-viewport scale computed by `renderPattern`. -/
def geomScale (b : Bounds) (viewport padding : ℚ) : ℚ :=
  min ((viewport - padding * 2) / patternWidth b)
      ((viewport - padding * 2) / patternHeight b)

/-- Drawing-surface width set by `renderPattern`:
`patternWidth * scale + padding * 2`. -/
def canvasW (b : Bounds) (viewport padding : ℚ) : ℚ :=
  patternWidth b * geomScale b viewport padding + padding * 2

/-- Drawing-surface height set by `renderPattern`:
`patternHeight * scale + padding * 2`. -/
def canvasH (b : Bounds) (viewport padding : ℚ) : ℚ :=
  patternHeight b * geomScale b viewport padding + padding * 2

/-- Coordinate transform `tx(x) = (x - min_x) * scale + padding`. -/
def tx (b : Bounds) (scale padding x : ℚ) : ℚ := (x - b.min_x) * scale + padding

/-- Coordinate transform `ty(y) = (y - min_y) * scale + padding`. -/
def ty (b : Bounds) (scale padding y : ℚ) : ℚ := (y - b.min_y) * scale + padding

/-! ## JavaScript-number semantics for the degenerate-bounds scale

When `patternWidth` or `patternHeight` is zero the source's divisions are
IEEE-754 divisions by zero.  `JsNum` records exactly the cases the scale
computation can produce: a finite rational, the two infinities, or NaN. -/

/-- A JavaScript number as needed by the scale computation. -/
inductive JsNum where
  | fin : ℚ → JsNum
  | inf : JsNum
  | ninf : JsNum
  | nan : JsNum
deriving DecidableEq

/-- IEEE-754 division of two finite values (`a / b` in JavaScript):
division by `+0` yields `NaN` for a zero numerator and a signed infinity
otherwise. -/
def jsDivQ (a b : ℚ) : JsNum :=
  if b = 0 then
    if a = 0 then JsNum.nan else if 0 < a then JsNum.inf else JsNum.ninf
  else JsNum.fin (a / b)

/-- `Math.min` on JavaScript numbers: NaN-propagating, with
`-Infinity < finite < Infinity`. -/
def jsMin : JsNum → JsNum → JsNum
  | JsNum.nan, _ => JsNum.nan
  | _, JsNum.nan => JsNum.nan
  | JsNum.ninf, _ => JsNum.ninf
  | _, JsNum.ninf => JsNum.ninf
  | JsNum.inf, v => v
  | v, JsNum.inf => v
  | JsNum.fin a, JsNum.fin b => JsNum.fin (min a b)

/-- The scale computation of `renderPattern` under JavaScript number
semantics, as a function of the bounds and the viewport budget. -/
def jsScale (b : Bounds) (viewport padding : ℚ) : JsNum :=
  jsMin (jsDivQ (viewport - padding * 2) (patternWidth b))
        (jsDivQ (viewport - padding * 2) (patternHeight b))

/-- Whether a JavaScript number is finite and positive. -/
def JsNum.finitePos : JsNum → Prop
  | JsNum.fin q => 0 < q
  | _ => False

/-! ## The stitch walk

Both renderers carry `colorIdx`, `prevX`, `prevY`, `hasStart` while walking
the stitch list in order.  A `STITCH` draws a segment from the previous
point when one exists and the segment length is at least `0.5`; `MOVE` and
`COLOR_CHANGE` only update the carried state; commands outside the
vocabulary do nothing.  The two walks differ solely on `"END"`: the
progressive `renderChunk` returns from the walk, the one-shot
`renderPattern` of `App.tsx` falls through to the next stitch. -/

/-- Cross-chunk render state: color index, previous point, and whether a
previous point has been established. -/
structure RState where
  colorIdx : ℕ
  prevX : ℚ
  prevY : ℚ
  hasStart : Bool
deriving DecidableEq

/-- Initial walk state (`colorIdx = 0`, `prev = (0,0)`, `hasStart = false`). -/
def initState : RState := ⟨0, 0, 0, false⟩

/-- One drawn segment: the transformed endpoints and the color index used.
The three stroke passes (shadow, main, highlight) and the thread width are
fixed functions of these data and of the per-render scale. -/
structure Seg where
  x1 : ℚ
  y1 : ℚ
  x2 : ℚ
  y2 : ℚ
  colorIdx : ℕ
deriving DecidableEq

/-- The segment a `STITCH` at transformed point `(x, y)` draws: only when a
previous point exists and `sqrt(dx^2 + dy^2) >= 0.5`, stated squared to stay
in the rationals. -/
def drawnSeg (s : RState) (x y : ℚ) : Option Seg :=
  if s.hasStart = true ∧ 1 / 4 ≤ (x - s.prevX) ^ 2 + (y - s.prevY) ^ 2 then
    some ⟨s.prevX, s.prevY, x, y, s.colorIdx⟩
  else none

/-- One stitch command of the progressive walk (`renderChunk`): next state,
optionally a drawn segment, and whether the walk halts (`"END"`). -/
def stepP (mx my scale : ℚ) (s : RState) (st : Stitch) : RState × Option Seg × Bool :=
  let x := (st.x - mx) * scale
  let y := (st.y - my) * scale
  if st.command = "STITCH" then (⟨s.colorIdx, x, y, true⟩, drawnSeg s x y, false)
  else if st.command = "MOVE" then (⟨s.colorIdx, x, y, true⟩, none, false)
  else if st.command = "COLOR_CHANGE" then (⟨s.colorIdx + 1, x, y, true⟩, none, false)
  else if st.command = "END" then (s, none, true)
  else (s, none, false)

/-- Sequential walk over a stitch list, stopping early at `"END"`:
final state, drawn segments in order, and the halt flag. -/
def runSeq (mx my scale : ℚ) (s : RState) : List Stitch → RState × List Seg × Bool
  | [] => (s, [], false)
  | st :: rest =>
    let r := stepP mx my scale s st
    if r.2.2 then (r.1, r.2.1.toList, true)
    else
      let r' := runSeq mx my scale r.1 rest
      (r'.1, r.2.1.toList ++ r'.2.1, r'.2.2)

/-- The chunked walk of `renderChunk`: per animation frame it processes
`batch + 1` stitches (the source uses `STITCHES_PER_FRAME = 8000`; `+ 1`
keeps the batch size positive by construction), carrying the state across
chunks, until the list is exhausted or an `"END"` halted a chunk. -/
def runChunks (mx my scale : ℚ) (batch : ℕ) (s : RState) (l : List Stitch) :
    RState × List Seg × Bool :=
  match l with
  | [] => (s, [], false)
  | st :: rest =>
    let r := runSeq mx my scale s ((st :: rest).take (batch + 1))
    if r.2.2 then r
    else
      let r' := runChunks mx my scale batch r.1 ((st :: rest).drop (batch + 1))
      (r'.1, r.2.1 ++ r'.2.1, r'.2.2)
termination_by l.length
decreasing_by simp; omega

/-- The inline thread palette of the progressive renderer (15 entries). -/
def COLORS : List (ℕ × ℕ × ℕ) :=
  [(0, 0, 0), (26, 26, 140), (10, 95, 28), (140, 26, 26), (140, 26, 107),
   (92, 77, 26), (140, 140, 140), (77, 77, 77), (51, 102, 204), (51, 204, 102),
   (204, 51, 51), (204, 102, 204), (204, 204, 51), (230, 230, 230), (26, 26, 26)]

/-- Palette lookup `COLORS[colorIdx % COLORS.length]`. -/
def resolveColor (ci : ℕ) : ℕ × ℕ × ℕ := COLORS.getD (ci % COLORS.length) (0, 0, 0)

/-- One stitch command of `App.tsx`'s one-shot `renderPattern` walk: same
state transitions, but `"END"` is a plain `break` out of the `switch`, so
the walk continues with the next stitch. -/
def stepA (mx my scale : ℚ) (s : RState) (st : Stitch) : RState × Option Seg :=
  let x := (st.x - mx) * scale
  let y := (st.y - my) * scale
  if st.command = "STITCH" then (⟨s.colorIdx, x, y, true⟩, drawnSeg s x y)
  else if st.command = "MOVE" then (⟨s.colorIdx, x, y, true⟩, none)
  else if st.command = "COLOR_CHANGE" then (⟨s.colorIdx + 1, x, y, true⟩, none)
  else (s, none)

/-- The full walk of `App.tsx`'s `renderPattern` over the stitch list. -/
def runA (mx my scale : ℚ) (s : RState) : List Stitch → RState × List Seg
  | [] => (s, [])
  | st :: rest =>
    let r := stepA mx my scale s st
    let r' := runA mx my scale r.1 rest
    (r'.1, r.2.toList ++ r'.2)

/-- `App.tsx`'s `renderPattern`: scale from the container size minus 40,
transform without padding, then the one-shot walk; returns the drawn
segments. -/
def renderPatternSegs (b : Bounds) (clientW clientH : ℚ) (l : List Stitch) : List Seg :=
  let containerWidth := clientW - 40
  let containerHeight := clientH - 40
  let scale := min (containerWidth / patternWidth b) (containerHeight / patternHeight b)
  (runA b.min_x b.min_y scale initState l).2

/-! ## Session model -/

/-- A tab of the session: stable id, display name, de-dup key `filePath`,
and the loaded pattern (absent for an empty placeholder tab). -/
structure Tab where
  id : String
  name : String
  filePath : Option String
  pattern : Option Pattern
deriving DecidableEq

/-- The session state: the ordered tab list and the active tab's id. -/
structure Session where
  tabs : List Tab
  activeTabId : String
deriving DecidableEq

/-- The session as initialised: one empty tab with id `"1"`, active. -/
def initialSession : Session := ⟨[⟨"1", "Empty", none, none⟩], "1"⟩

/-- The ids of the session's tabs, in order. -/
def ids (s : Session) : List String := s.tabs.map Tab.id

/-- ASCII lowering of one character, as `toLowerCase` acts on path
characters. -/
def lowerChar (c : Char) : Char :=
  if 'A' ≤ c ∧ c ≤ 'Z' then Char.ofNat (c.toNat + 32) else c

/-- `path.slice(path.lastIndexOf("."))`: the suffix from the last dot;
when there is no dot, `lastIndexOf` is `-1` and `slice(-1)` keeps just the
last character. -/
def jsExt (cs : List Char) : List Char :=
  match cs.reverse.span (fun c => c != '.') with
  | (aft, '.' :: _) => '.' :: aft.reverse
  | (_, _) => (cs.reverse.take 1).reverse

/-- The extension allow-list of the session layer. -/
def SUPPORTED_FORMATS : List String := [".dst"]

/-- The extension filter both load operations apply before anything else:
lowercase the path, slice from the last dot, check the allow-list. -/
def extSupported (path : String) : Bool :=
  SUPPORTED_FORMATS.contains (String.mk (jsExt (path.toList.map lowerChar)))

/-- `path.split(/[\\/]/).pop() ?? "Untitled"`: the last path segment. -/
def lastSeg : List Char → List Char → List Char
  | [], acc => acc.reverse
  | c :: rest, acc =>
      if c = '/' ∨ c = '\\' then lastSeg rest [] else lastSeg rest (c :: acc)

/-- The display name derived from a path (its last segment). -/
def fileNameOf (path : String) : String := String.mk (lastSeg path.toList [])

/-- `addNewTab`: activate an existing empty (pattern-absent) tab if there
is one, else append a new empty tab whose id is the millisecond clock
rendered as a string (`Date.now().toString()`), and activate it. -/
def addNewTab (s : Session) (clock : ℕ) : Session :=
  match s.tabs.find? (fun t => t.pattern.isNone) with
  | some t => { s with activeTabId := t.id }
  | none =>
      let newId := toString clock
      { tabs := s.tabs ++ [⟨newId, "Empty", none, none⟩], activeTabId := newId }

/-- `closeTab`: no-op when only one tab remains; otherwise remove the tab
and, if it was the active one, activate the first remaining tab.  The
source indexes `newTabs[0]` directly; `head?` with the old active id as
fallback totalises the embedding (the fallback is unreachable when ids are
distinct). -/
def closeTab (s : Session) (tabId : String) : Session :=
  if s.tabs.length = 1 then s
  else
    let newTabs := s.tabs.filter (fun t => t.id != tabId)
    if s.activeTabId = tabId then
      { tabs := newTabs, activeTabId := newTabs.head?.elim s.activeTabId Tab.id }
    else { s with tabs := newTabs }

/-- The tab update a successful load into the current tab performs: name,
filePath and pattern are replaced; every other field (the id) is kept. -/
def updTab (t : Tab) (path nm : String) (pat : Pattern) : Tab :=
  { t with name := nm, filePath := some path, pattern := some pat }

/-- The `setTabs(prev => prev.map(...))` updater a resolved load applies:
only tabs whose id equals the active id captured at call time are
replaced.  Applying it to a tab list from which that tab has been closed
changes nothing (the stale result is discarded). -/
def applyLoad (tabs : List Tab) (targetId path nm : String) (pat : Pattern) : List Tab :=
  tabs.map (fun t => if t.id = targetId then updTab t path nm pat else t)

/-- `loadFile` (load into the current tab): extension filter, then de-dup
by `filePath` (focus the existing tab, no parse), else parse — modelled by
the `parse` argument (`none` = the parser threw) — and update the active
tab.  Returns the new session and whether the parser was invoked. -/
def loadFile (s : Session) (path : String) (parse : Option Pattern) : Session × Bool :=
  if extSupported path then
    match s.tabs.find? (fun t => t.filePath == some path) with
    | some t => ({ s with activeTabId := t.id }, false)
    | none =>
        match parse with
        | none => (s, true)
        | some pat =>
            ({ s with tabs := applyLoad s.tabs s.activeTabId path (fileNameOf path) pat }, true)
  else (s, false)

/-- `loadFileInNewTab`: same filter and de-dup; on a successful parse insert
a new tab with a clock-generated id (at `insertIndex` when given and within
`0 ≤ i ≤ tabCount`, else appended) and activate it. -/
def loadFileInNewTab (s : Session) (path : String) (clock : ℕ) (parse : Option Pattern)
    (insertIndex : Option ℕ) : Session × Bool :=
  if extSupported path then
    match s.tabs.find? (fun t => t.filePath == some path) with
    | some t => ({ s with activeTabId := t.id }, false)
    | none =>
        let newId := toString clock
        match parse with
        | none => (s, true)
        | some pat =>
            let newTab : Tab := ⟨newId, fileNameOf path, some path, some pat⟩
            let newTabs :=
              match insertIndex with
              | some i =>
                  if i ≤ s.tabs.length then s.tabs.insertIdx i newTab
                  else s.tabs ++ [newTab]
              | none => s.tabs ++ [newTab]
            ({ tabs := newTabs, activeTabId := newId }, true)
  else (s, false)

/-- A session operation together with the data the host supplies when it
runs: the millisecond clock read for a generated id, and the external
parser's result. -/
inductive Op where
  | newTab (clock : ℕ)
  | loadCur (path : String) (parse : Option Pattern)
  | loadNew (path : String) (clock : ℕ) (parse : Option Pattern) (insertIndex : Option ℕ)
  | close (tabId : String)
deriving DecidableEq

/-- Apply one session operation. -/
def applyOp (s : Session) : Op → Session
  | Op.newTab c => addNewTab s c
  | Op.loadCur p parse => (loadFile s p parse).1
  | Op.loadNew p c parse idx => (loadFileInNewTab s p c parse idx).1
  | Op.close tid => closeTab s tid

/-- Apply a sequence of session operations in order. -/
def applyOps (s : Session) (ops : List Op) : Session := ops.foldl applyOp s

/-- Freshness of one operation's generated id against the current session:
the clock value it reads renders to an id not already in the tab list. -/
def freshOp (s : Session) : Op → Bool
  | Op.newTab c => !(ids s).contains (toString c)
  | Op.loadNew _ c _ _ => !(ids s).contains (toString c)
  | _ => true

/-- Freshness of every operation of a run, each checked against the session
it actually executes in. -/
def freshRun (s : Session) : List Op → Bool
  | [] => true
  | op :: rest => freshOp s op && freshRun (applyOp s op) rest

/-! ## Drag target resolution -/

/-- `calculateGhostIndex`: the tab-insertion index resolved from the
pointer x during a header-zone drag, given the tab strip's horizontal
scroll offset and the tab count.  Constants from the source: tab width
160, spacing 6, settings button 45, so the leading offset is 57 and a tab
slot is 166 wide. -/
def calculateGhostIndex (scrollLeft x : ℚ) (tabCount : ℕ) : ℤ :=
  let tabWidth : ℚ := 160
  let spacing : ℚ := 6
  let settingsBtnWidth : ℚ := 45 + spacing
  let tabsContainerStart : ℚ := settingsBtnWidth + spacing
  let relativeX := x - tabsContainerStart + scrollLeft
  let tabSlotWidth := tabWidth + spacing
  let index : ℤ := ⌊(relativeX + tabSlotWidth / 2) / tabSlotWidth⌋
  max 0 (min index (tabCount : ℤ))

end EmbroCAD

namespace EmbroCAD

/-! ## Claim C1 -/

/-- C1: the renderer computes
`scale = min((viewport - 2*padding)/patternWidth, (viewport - 2*padding)/patternHeight)`,
maps stitch coordinates by `drawX(x) = (x - min_x)*scale + padding` and
`drawY(y) = (y - min_y)*scale + padding`, and sets the surface size to
`(patternWidth*scale + 2*padding, patternHeight*scale + 2*padding)`;
for bounds `{0,0,100,50}`, viewport 400x400, padding 40 the scale is
`3.2 = 16/5` and the surface size is `(400, 240)`. -/
theorem renderPattern_geometry (b : Bounds) (v p : ℚ)
    (_hw : 0 < b.max_x - b.min_x) (_hh : 0 < b.max_y - b.min_y) :
    geomScale b v p =
        min ((v - 2 * p) / (b.max_x - b.min_x)) ((v - 2 * p) / (b.max_y - b.min_y)) ∧
    (∀ x, tx b (geomScale b v p) p x = (x - b.min_x) * geomScale b v p + p) ∧
    (∀ y, ty b (geomScale b v p) p y = (y - b.min_y) * geomScale b v p + p) ∧
    canvasW b v p = (b.max_x - b.min_x) * geomScale b v p + 2 * p ∧
    canvasH b v p = (b.max_y - b.min_y) * geomScale b v p + 2 * p ∧
    geomScale ⟨0, 0, 100, 50⟩ 400 40 = 16 / 5 ∧
    canvasW ⟨0, 0, 100, 50⟩ 400 40 = 400 ∧
    canvasH ⟨0, 0, 100, 50⟩ 400 40 = 240 := by
  refine ⟨?_, fun x => rfl, fun y => rfl, ?_, ?_, ?_, ?_, ?_⟩
  · simp [geomScale, patternWidth, patternHeight]; ring_nf
  · simp [canvasW, patternWidth]; ring_nf
  · simp [canvasH, patternHeight]; ring_nf
  · norm_num [geomScale, patternWidth, patternHeight]
  · norm_num [canvasW, geomScale, patternWidth, patternHeight]
  · norm_num [canvasH, geomScale, patternWidth, patternHeight]

/-- Witness for C1: the hypotheses hold at the spec's concrete example. -/
theorem renderPattern_geometry_witness :
    (0 : ℚ) < 100 - 0 ∧ (0 : ℚ) < 50 - 0 ∧
    geomScale ⟨0, 0, 100, 50⟩ 400 40 =
        min ((400 - 2 * 40) / (100 - 0)) ((400 - 2 * 40) / (50 - 0)) := by
  refine ⟨by norm_num, by norm_num, ?_⟩
  have h := renderPattern_geometry ⟨0, 0, 100, 50⟩ 400 40 (by norm_num) (by norm_num)
  exact h.1

/-! ## Claim C2 -/

/-- C2 (code bug): on fully degenerate bounds (`max_x = min_x` and
`max_y = min_y`) the scale computation divides by zero and evaluates to
`Infinity`, not a finite positive number: at bounds `{0,0,0,0}` with
viewport 400 and padding 40 the computed scale is `+Infinity`. -/
theorem jsScale_degenerate_infinite :
    jsScale ⟨0, 0, 0, 0⟩ 400 40 = JsNum.inf ∧
    ¬ (jsScale ⟨0, 0, 0, 0⟩ 400 40).finitePos := by
  have h : jsScale ⟨0, 0, 0, 0⟩ 400 40 = JsNum.inf := by
    norm_num [jsScale, jsDivQ, patternWidth, patternHeight, jsMin]
  exact ⟨h, by rw [h]; exact not_false⟩

/-! ## Chunking lemmas for the progressive walk -/

/-- Splitting a sequential walk at a list append: if the first part halts
the second part is never reached, otherwise the walk continues from the
carried state and the segment lists concatenate. -/
theorem runSeq_append (mx my scale : ℚ) (s : RState) (l₁ l₂ : List Stitch) :
    runSeq mx my scale s (l₁ ++ l₂) =
      if (runSeq mx my scale s l₁).2.2 then runSeq mx my scale s l₁
      else
        ((runSeq mx my scale (runSeq mx my scale s l₁).1 l₂).1,
         (runSeq mx my scale s l₁).2.1 ++
           (runSeq mx my scale (runSeq mx my scale s l₁).1 l₂).2.1,
         (runSeq mx my scale (runSeq mx my scale s l₁).1 l₂).2.2) := by
  induction l₁ generalizing s with
  | nil => simp [runSeq]
  | cons st rest ih =>
    simp only [List.cons_append, runSeq, List.append_eq]
    by_cases h : (stepP mx my scale s st).2.2
    · simp [h]
    · simp only [h, Bool.false_eq_true, if_false]
      rw [ih]
      by_cases h2 : (runSeq mx my scale (stepP mx my scale s st).1 rest).2.2
      · simp [h2]
      · simp [h2, List.append_assoc]

/-- The chunked walk computes exactly the sequential walk, for every batch
size. -/
theorem runChunks_eq_runSeq (mx my scale : ℚ) (batch : ℕ) (l : List Stitch) (s : RState) :
    runChunks mx my scale batch s l = runSeq mx my scale s l := by
  have key : ∀ (n : ℕ) (l : List Stitch) (s : RState), l.length = n →
      runChunks mx my scale batch s l = runSeq mx my scale s l := by
    intro n
    induction n using Nat.strong_induction_on with
    | _ n ih =>
      intro l s hn
      cases l with
      | nil => simp [runChunks, runSeq]
      | cons st rest =>
        rw [runChunks]
        have hsplit := List.take_append_drop (batch + 1) (st :: rest)
        conv_rhs => rw [← hsplit]
        rw [runSeq_append]
        simp only [List.take_succ_cons, List.drop_succ_cons]
        by_cases h : (runSeq mx my scale s (st :: List.take batch rest)).2.2
        · simp [h]
        · have hlen : (List.drop batch rest).length < n := by
            subst hn; simp; omega
          simp only [h, Bool.false_eq_true, if_false]
          rw [ih _ hlen _ _ rfl]
  exact key l.length l s rfl

/-- `stepP` on a command other than `"END"` never halts, and increments the
color index exactly when the command is `"COLOR_CHANGE"`. -/
theorem stepP_not_end (mx my scale : ℚ) (s : RState) (st : Stitch)
    (h : ¬ st.command = "END") :
    (stepP mx my scale s st).2.2 = false ∧
    (stepP mx my scale s st).1.colorIdx
      = s.colorIdx + (if st.command = "COLOR_CHANGE" then 1 else 0) := by
  simp only [stepP]
  split_ifs with h1 h2 h3 h4 <;> simp_all

/-- On an `"END"`-free list the sequential walk never halts and its final
color index is the initial one plus the number of `"COLOR_CHANGE"`
commands. -/
theorem runSeq_colorIdx_no_end (mx my scale : ℚ) :
    ∀ (l : List Stitch) (s : RState), (∀ st ∈ l, ¬ st.command = "END") →
      (runSeq mx my scale s l).2.2 = false ∧
      (runSeq mx my scale s l).1.colorIdx
        = s.colorIdx + l.countP (fun st => st.command == "COLOR_CHANGE") := by
  intro l
  induction l with
  | nil => intro s _; simp [runSeq]
  | cons st rest ih =>
    intro s h
    have hne : ¬ st.command = "END" := h st (List.mem_cons_self st rest)
    have hstep := stepP_not_end mx my scale s st hne
    have ihr := ih (stepP mx my scale s st).1 (fun a ha => h a (List.mem_cons_of_mem st ha))
    simp only [runSeq, hstep.1, Bool.false_eq_true, if_false]
    refine ⟨ihr.1, ?_⟩
    rw [ihr.2, hstep.2, List.countP_cons]
    by_cases hc : st.command = "COLOR_CHANGE"
    · simp [hc]
      omega
    · simp [hc]

/-! ## Claim C3 -/

/-- C3: running the progressive render to completion produces the same
segment sequence, endpoints, color indices and final state for every
positive batch size (`runChunks` with batch size `b + 1`), and equals
processing all stitches in one sequential pass. -/
theorem renderChunk_batch_invariant (mx my scale : ℚ) (b₁ b₂ : ℕ) (l : List Stitch) :
    runChunks mx my scale b₁ initState l = runSeq mx my scale initState l ∧
    runChunks mx my scale b₁ initState l = runChunks mx my scale b₂ initState l := by
  rw [runChunks_eq_runSeq, runChunks_eq_runSeq]
  exact ⟨rfl, rfl⟩

/-! ## Claim C4 -/

/-- C4: the color index in effect when the stitch at position `i` is
processed equals the number of `"COLOR_CHANGE"` commands at positions
strictly before `i`, and the palette lookup `COLORS[ci % COLORS.length]`
is defined for every color index `ci`. -/
theorem colorIndex_prefix_count (mx my scale : ℚ) (l : List Stitch) (i : ℕ)
    (_hi : i ≤ l.length) (hne : ∀ st ∈ l.take i, ¬ st.command = "END") :
    (runSeq mx my scale initState (l.take i)).1.colorIdx
      = (l.take i).countP (fun st => st.command == "COLOR_CHANGE") ∧
    ∀ ci : ℕ, ci % COLORS.length < COLORS.length ∧
      COLORS[ci % COLORS.length]? = some (resolveColor ci) := by
  constructor
  · have h := runSeq_colorIdx_no_end mx my scale (l.take i) initState hne
    simpa [initState] using h.2
  · intro ci
    have hlt : ci % COLORS.length < COLORS.length := Nat.mod_lt _ (by simp [COLORS])
    refine ⟨hlt, ?_⟩
    rw [List.getElem?_eq_getElem hlt]
    simp [resolveColor, List.getD_eq_getElem?_getD, List.getElem?_eq_getElem hlt]

/-- Witness for C4: the spec's example list `[MOVE, COLOR_CHANGE, STITCH]`
at position 2 — one color change strictly before it. -/
theorem colorIndex_prefix_count_witness :
    (2 : ℕ) ≤ ([⟨0, 0, "MOVE"⟩, ⟨1, 0, "COLOR_CHANGE"⟩, ⟨2, 0, "STITCH"⟩] : List Stitch).length ∧
    (runSeq 0 0 1 initState
        (([⟨0, 0, "MOVE"⟩, ⟨1, 0, "COLOR_CHANGE"⟩, ⟨2, 0, "STITCH"⟩] : List Stitch).take 2)).1.colorIdx
      = (([⟨0, 0, "MOVE"⟩, ⟨1, 0, "COLOR_CHANGE"⟩, ⟨2, 0, "STITCH"⟩] : List Stitch).take 2).countP
          (fun st => st.command == "COLOR_CHANGE") :=
  ⟨by decide,
   (colorIndex_prefix_count 0 0 1
      [⟨0, 0, "MOVE"⟩, ⟨1, 0, "COLOR_CHANGE"⟩, ⟨2, 0, "STITCH"⟩] 2
      (by decide) (by decide)).1⟩

/-! ## Claim C5 -/

/-- C5 counterexample: `App.tsx`'s one-shot `renderPattern` does NOT
terminate at the first `"END"` — on `[MOVE(0,0), END, STITCH(1,0)]` with
bounds `{0,0,10,10}` and a 440x440 container it draws the segment
`(0,0)→(40,0)` for the stitch positioned after the `"END"`. -/
theorem renderPattern_draws_after_end :
    renderPatternSegs ⟨0, 0, 10, 10⟩ 440 440
        [⟨0, 0, "MOVE"⟩, ⟨0, 0, "END"⟩, ⟨1, 0, "STITCH"⟩]
      = [⟨0, 0, 40, 0, 0⟩] := by
  norm_num +decide [renderPatternSegs, runA, stepA, drawnSeg, initState,
    patternWidth, patternHeight, min_def, Seg.mk.injEq]

/-- C5 (amended): in the progressive walk (`renderChunk`) the walk halts at
the first `"END"`: the result is independent of everything after it — no
later stitch is processed or drawn and the carried state is unchanged by
the `"END"` and by all commands after it. -/
theorem renderChunk_end_terminates (mx my scale : ℚ) (s : RState) (l₁ l₂ : List Stitch)
    (e : Stitch) (he : e.command = "END") (hne : ∀ st ∈ l₁, ¬ st.command = "END") :
    runSeq mx my scale s (l₁ ++ e :: l₂) =
      ((runSeq mx my scale s l₁).1, (runSeq mx my scale s l₁).2.1, true) := by
  rw [runSeq_append]
  have h1 : (runSeq mx my scale s l₁).2.2 = false :=
    (runSeq_colorIdx_no_end mx my scale l₁ s hne).1
  simp only [h1, Bool.false_eq_true, if_false]
  have h2 : runSeq mx my scale (runSeq mx my scale s l₁).1 (e :: l₂) =
      ((runSeq mx my scale s l₁).1, [], true) := by
    simp [runSeq, stepP, he]
  rw [h2]
  simp

/-- Witness for C5's amended theorem: `[STITCH(1,0)] ++ END :: [STITCH(9,9)]`
halts at the `"END"`, ignoring the trailing stitch. -/
theorem renderChunk_end_terminates_witness :
    (⟨5, 5, "END"⟩ : Stitch).command = "END" ∧
    runSeq 0 0 1 initState ([⟨1, 0, "STITCH"⟩] ++ ⟨5, 5, "END"⟩ :: [⟨9, 9, "STITCH"⟩])
      = ((runSeq 0 0 1 initState [⟨1, 0, "STITCH"⟩]).1,
         (runSeq 0 0 1 initState [⟨1, 0, "STITCH"⟩]).2.1, true) :=
  ⟨rfl,
   renderChunk_end_terminates 0 0 1 initState [⟨1, 0, "STITCH"⟩] [⟨9, 9, "STITCH"⟩]
     ⟨5, 5, "END"⟩ rfl (by decide)⟩

/-! ## Claim C6 -/

/-- C6: `closeTab` never drops the tab count below 1; with exactly one tab
it is a no-op; when more than one tab exists and the closed tab was the
active one, the first remaining tab becomes active; and the active id is
always present in the tab list afterwards. -/
theorem closeTab_invariants (s : Session) (tid : String)
    (hnd : (ids s).Nodup) (hact : s.activeTabId ∈ ids s) :
    1 ≤ (closeTab s tid).tabs.length ∧
    (s.tabs.length = 1 → closeTab s tid = s) ∧
    (1 < s.tabs.length → s.activeTabId = tid →
      ∃ t, (s.tabs.filter (fun x => x.id != tid)).head? = some t ∧
        (closeTab s tid).activeTabId = t.id) ∧
    (closeTab s tid).activeTabId ∈ ids (closeTab s tid) := by
  by_cases hlen : s.tabs.length = 1
  · refine ⟨by simp [closeTab, hlen], fun _ => by simp [closeTab, hlen], ?_, ?_⟩
    · intro hgt _; omega
    · simpa [closeTab, hlen] using hact
  · have hne0 : s.tabs ≠ [] := by
      intro h
      rw [ids, h] at hact
      simp at hact
    have hpos : 0 < s.tabs.length := List.length_pos.mpr hne0
    have h2 : 2 ≤ s.tabs.length := by omega
    obtain ⟨a, tl, htabs⟩ := List.exists_cons_of_ne_nil hne0
    have htlne : tl ≠ [] := by
      intro h
      rw [htabs, h] at h2
      simp at h2
    obtain ⟨b, rest, htl⟩ := List.exists_cons_of_ne_nil htlne
    have habr : s.tabs = a :: b :: rest := by rw [htabs, htl]
    have hnewne : s.tabs.filter (fun t => t.id != tid) ≠ [] := by
      intro hf
      have hall : ∀ t ∈ s.tabs, t.id = tid := by
        intro t ht
        have := List.filter_eq_nil_iff.mp hf t ht
        simpa using this
      have hab : a ∈ s.tabs := by rw [habr]; exact List.mem_cons_self a _
      have hbb : b ∈ s.tabs := by
        rw [habr]; exact List.mem_cons_of_mem a (List.mem_cons_self b rest)
      have hnd' : ¬ a.id = b.id := by
        have hnd2 := hnd
        rw [ids, habr] at hnd2
        intro hh
        simp [List.map_cons, List.nodup_cons, hh] at hnd2
      exact hnd' ((hall a hab).trans (hall b hbb).symm)
    have hhead := List.head?_eq_head hnewne
    refine ⟨?_, fun h1 => absurd h1 hlen, ?_, ?_⟩
    · have hp := List.length_pos.mpr hnewne
      by_cases hat : s.activeTabId = tid <;> simp [closeTab, hlen, hat] <;> omega
    · intro _ hat
      refine ⟨(s.tabs.filter (fun t => t.id != tid)).head hnewne, hhead, ?_⟩
      simp only [closeTab, if_neg hlen, if_pos hat, hhead]
      rfl
    · by_cases hat : s.activeTabId = tid
      · have hmem := List.head_mem hnewne
        simp only [closeTab, if_neg hlen, if_pos hat, hhead, ids]
        exact List.mem_map.mpr ⟨_, hmem, rfl⟩
      · obtain ⟨t, htmem, hteq⟩ := List.mem_map.mp hact
        have htf : t ∈ s.tabs.filter (fun x => x.id != tid) := by
          rw [List.mem_filter]
          exact ⟨htmem, by simp [hteq, hat]⟩
        simp only [closeTab, if_neg hlen, if_neg hat, ids]
        exact List.mem_map.mpr ⟨t, htf, hteq⟩

/-- Witness for C6: a two-tab session, closing the active tab "1"
activates the first remaining tab. -/
theorem closeTab_invariants_witness :
    (ids ⟨[⟨"1", "Empty", none, none⟩, ⟨"2", "Empty", none, none⟩], "1"⟩).Nodup ∧
    1 ≤ (closeTab ⟨[⟨"1", "Empty", none, none⟩, ⟨"2", "Empty", none, none⟩], "1"⟩ "1").tabs.length :=
  ⟨by decide,
   (closeTab_invariants ⟨[⟨"1", "Empty", none, none⟩, ⟨"2", "Empty", none, none⟩], "1"⟩ "1"
      (by decide) (by decide)).1⟩

/-! ## Claim C8 -/

/-- C8: the drag insertion index equals
`clamp(round((x - 57 + scrollLeft) / 166), 0, tabCount)` (57 is the leading
offset, 166 the tab slot width, and `floor(q + 1/2)` is the half-slot
rounding rule), lies in `[0, tabCount]`, and is monotone in the pointer x. -/
theorem calculateGhostIndex_spec (scrollLeft x₁ x₂ : ℚ) (n : ℕ) (hx : x₁ ≤ x₂) :
    calculateGhostIndex scrollLeft x₁ n
      = max 0 (min (round ((x₁ - 57 + scrollLeft) / 166)) (n : ℤ)) ∧
    0 ≤ calculateGhostIndex scrollLeft x₁ n ∧
    calculateGhostIndex scrollLeft x₁ n ≤ (n : ℤ) ∧
    calculateGhostIndex scrollLeft x₁ n ≤ calculateGhostIndex scrollLeft x₂ n := by
  have key : ∀ y : ℚ, calculateGhostIndex scrollLeft y n
      = max 0 (min (round ((y - 57 + scrollLeft) / 166)) (n : ℤ)) := by
    intro y
    have harg : (y - (45 + 6 + 6 : ℚ) + scrollLeft + (160 + 6) / 2) / (160 + 6)
        = (y - 57 + scrollLeft) / 166 + 1 / 2 := by ring
    simp only [calculateGhostIndex]
    rw [harg, ← round_eq]
  refine ⟨key x₁, le_max_left _ _, ?_, ?_⟩
  · rw [key x₁]
    exact max_le (Int.ofNat_nonneg n) (min_le_right _ _)
  · rw [key x₁, key x₂]
    have hdiv : (x₁ - 57 + scrollLeft) / 166 ≤ (x₂ - 57 + scrollLeft) / 166 := by
      apply div_le_div_of_nonneg_right ?_ (by norm_num)
      linarith
    have hround : round ((x₁ - 57 + scrollLeft) / 166) ≤ round ((x₂ - 57 + scrollLeft) / 166) := by
      rw [round_eq, round_eq]
      exact Int.floor_mono (by linarith)
    exact max_le_max le_rfl (min_le_min hround le_rfl)

/-- Witness for C8: pointer positions 0 and 300 with no scroll and 3 tabs. -/
theorem calculateGhostIndex_spec_witness :
    (0 : ℚ) ≤ 300 ∧
    calculateGhostIndex 0 0 3 ≤ calculateGhostIndex 0 300 3 :=
  ⟨by norm_num, (calculateGhostIndex_spec 0 0 300 3 (by norm_num)).2.2.2⟩

/-! ## Load / session helpers -/

/-- A resolved load whose target tab id is no longer present changes
nothing: the stale result is discarded. -/
theorem applyLoad_not_present (tabs : List Tab) (a path nm : String) (pat : Pattern)
    (h : a ∉ tabs.map Tab.id) : applyLoad tabs a path nm pat = tabs := by
  induction tabs with
  | nil => rfl
  | cons t rest ih =>
    simp only [List.map_cons, List.mem_cons] at h
    push_neg at h
    simp only [applyLoad, List.map_cons] at ih ⊢
    rw [if_neg (fun hh => h.1 hh.symm), ih h.2]

/-- `applyLoad` never changes any tab's id. -/
theorem applyLoad_ids (tabs : List Tab) (a path nm : String) (pat : Pattern) :
    (applyLoad tabs a path nm pat).map Tab.id = tabs.map Tab.id := by
  simp only [applyLoad, List.map_map]
  apply List.map_congr_left
  intro t _
  by_cases h : t.id = a <;> simp [h, updTab]

/-- `loadFile` never changes the list of tab ids. -/
theorem loadFile_ids (s : Session) (path : String) (parse : Option Pattern) :
    ids (loadFile s path parse).1 = ids s := by
  by_cases hext : extSupported path
  · simp only [loadFile, if_pos hext]
    cases hf : s.tabs.find? (fun t => t.filePath == some path) with
    | some t => rfl
    | none =>
      cases parse with
      | none => rfl
      | some pat => simpa [ids] using applyLoad_ids s.tabs s.activeTabId path (fileNameOf path) pat
  · simp [loadFile, hext]

/-- With distinct ids, a present target, and no tab holding the path yet,
a resolved load produces exactly one tab holding the path. -/
theorem countP_applyLoad (tabs : List Tab) (a path nm : String) (pat : Pattern)
    (hnd : (tabs.map Tab.id).Nodup) (ha : a ∈ tabs.map Tab.id)
    (hnone : ∀ t ∈ tabs, ¬ t.filePath = some path) :
    (applyLoad tabs a path nm pat).countP (fun t => t.filePath == some path) = 1 := by
  induction tabs with
  | nil => simp at ha
  | cons t rest ih =>
    simp only [List.map_cons, List.nodup_cons] at hnd
    simp only [List.map_cons, List.mem_cons] at ha
    have hrest0 : rest.countP (fun t => t.filePath == some path) = 0 := by
      rw [List.countP_eq_zero]
      intro x hx
      simpa using hnone x (List.mem_cons_of_mem t hx)
    by_cases hta : t.id = a
    · have hrest : applyLoad rest a path nm pat = rest :=
        applyLoad_not_present rest a path nm pat (by rw [← hta]; exact hnd.1)
      simp only [applyLoad, List.map_cons, if_pos hta] at hrest ⊢
      rw [hrest, List.countP_cons]
      simp [updTab, hrest0]
    · have ha' : a ∈ rest.map Tab.id := by
        rcases ha with h | h
        · exact absurd h.symm hta
        · exact h
      have hihr := ih hnd.2 ha' (fun x hx => hnone x (List.mem_cons_of_mem t hx))
      simp only [applyLoad, List.map_cons, if_neg hta] at hihr ⊢
      rw [List.countP_cons, hihr]
      have : ¬ t.filePath = some path := hnone t (List.mem_cons_self t rest)
      simp [this]

/-! ## Claim C7 -/

/-- C7: loading the same path twice in a row leaves exactly one tab holding
that path, and the second call performs no parser call and leaves the tab
list unchanged. -/
theorem loadFile_dedup (s : Session) (path : String) (pat pat' : Pattern)
    (hext : extSupported path = true)
    (hnd : (ids s).Nodup) (hact : s.activeTabId ∈ ids s)
    (hle : s.tabs.countP (fun t => t.filePath == some path) ≤ 1) :
    (loadFile (loadFile s path (some pat)).1 path (some pat')).1.tabs.countP
        (fun t => t.filePath == some path) = 1 ∧
    (loadFile (loadFile s path (some pat)).1 path (some pat')).2 = false ∧
    (loadFile (loadFile s path (some pat)).1 path (some pat')).1.tabs
      = (loadFile s path (some pat)).1.tabs := by
  have hcount1 : (loadFile s path (some pat)).1.tabs.countP
      (fun t => t.filePath == some path) = 1 := by
    cases hf : s.tabs.find? (fun t => t.filePath == some path) with
    | some t =>
      have hmem := List.mem_of_find?_eq_some hf
      have hp := List.find?_some hf
      have hpos : 0 < s.tabs.countP (fun t => t.filePath == some path) :=
        List.countP_pos_iff.mpr ⟨t, hmem, hp⟩
      have htabs1 : (loadFile s path (some pat)).1.tabs = s.tabs := by
        simp [loadFile, hext, hf]
      rw [htabs1]
      omega
    | none =>
      have hnone : ∀ t ∈ s.tabs, ¬ t.filePath = some path := by
        intro t ht
        have := List.find?_eq_none.mp hf t ht
        simpa using this
      have htabs1 : (loadFile s path (some pat)).1.tabs
          = applyLoad s.tabs s.activeTabId path (fileNameOf path) pat := by
        simp [loadFile, hext, hf]
      rw [htabs1]
      exact countP_applyLoad s.tabs s.activeTabId path (fileNameOf path) pat hnd hact hnone
  have hpos2 : 0 < (loadFile s path (some pat)).1.tabs.countP
      (fun t => t.filePath == some path) := by
    rw [hcount1]
    norm_num
  obtain ⟨t', ht'mem, ht'p⟩ := List.countP_pos_iff.mp hpos2
  have hfind2 : ((loadFile s path (some pat)).1.tabs.find?
      (fun t => t.filePath == some path)).isSome := by
    rw [List.find?_isSome]
    exact ⟨t', ht'mem, ht'p⟩
  obtain ⟨u, hu⟩ := Option.isSome_iff_exists.mp hfind2
  have hload2 : loadFile (loadFile s path (some pat)).1 path (some pat')
      = ({ (loadFile s path (some pat)).1 with activeTabId := u.id }, false) := by
    set s1 := (loadFile s path (some pat)).1 with hs1
    simp [loadFile, hext, hu]
  rw [hload2]
  exact ⟨hcount1, rfl, rfl⟩

/-- Witness for C7: the initial session loading `"a.dst"` twice. -/
theorem loadFile_dedup_witness :
    extSupported "a.dst" = true ∧
    (loadFile (loadFile initialSession "a.dst"
        (some ⟨[], none, 0, ⟨none, none, none⟩⟩)).1 "a.dst"
        (some ⟨[], none, 0, ⟨none, none, none⟩⟩)).2 = false :=
  ⟨by decide,
   (loadFile_dedup initialSession "a.dst" ⟨[], none, 0, ⟨none, none, none⟩⟩
      ⟨[], none, 0, ⟨none, none, none⟩⟩ (by decide) (by decide) (by decide) (by decide)).2.1⟩

/-! ## Claim C9 -/

/-- C9 counterexample: tab ids come from the millisecond clock
(`Date.now().toString()`), so two loads into new tabs during the same
millisecond (clock value 5 twice, different paths) leave two tabs with the
same id `"5"` — the tab ids are not pairwise distinct. -/
theorem tabIds_can_collide :
    ¬ (ids (applyOps initialSession
        [Op.loadNew "a.dst" 5 (some ⟨[], none, 0, ⟨none, none, none⟩⟩) none,
         Op.loadNew "b.dst" 5 (some ⟨[], none, 0, ⟨none, none, none⟩⟩) none])).Nodup := by
  decide

/-- Appending one fresh id keeps the id list duplicate-free. -/
theorem nodup_append_fresh (l : List String) (a : String)
    (hnd : l.Nodup) (ha : a ∉ l) : (l ++ [a]).Nodup := by
  rw [List.nodup_append]
  refine ⟨hnd, List.nodup_singleton _, ?_⟩
  intro x hx hx'
  simp only [List.mem_singleton] at hx'
  exact ha (hx' ▸ hx)

/-- One operation whose generated id is fresh preserves distinctness of the
tab ids. -/
theorem applyOp_nodup (s : Session) (op : Op)
    (hnd : (ids s).Nodup) (hfresh : freshOp s op = true) :
    (ids (applyOp s op)).Nodup := by
  cases op with
  | newTab c =>
    have hnotin : toString c ∉ ids s := by
      simpa [freshOp] using hfresh
    cases hf : s.tabs.find? (fun t => t.pattern.isNone) with
    | some t =>
      have hres : applyOp s (Op.newTab c) = { s with activeTabId := t.id } := by
        simp [applyOp, addNewTab, hf]
      rw [hres]
      exact hnd
    | none =>
      have hres : applyOp s (Op.newTab c)
          = ⟨s.tabs ++ [⟨toString c, "Empty", none, none⟩], toString c⟩ := by
        simp [applyOp, addNewTab, hf]
      rw [hres]
      simp only [ids, List.map_append, List.map_cons, List.map_nil]
      exact nodup_append_fresh _ _ hnd hnotin
  | loadCur p parse => rw [applyOp, loadFile_ids]; exact hnd
  | loadNew p c parse idx =>
    have hnotin : toString c ∉ ids s := by
      simpa [freshOp] using hfresh
    by_cases hext : extSupported p
    case neg =>
      have hres : applyOp s (Op.loadNew p c parse idx) = s := by
        simp [applyOp, loadFileInNewTab, hext]
      rw [hres]; exact hnd
    case pos =>
    cases hf : s.tabs.find? (fun t => t.filePath == some p) with
    | some t =>
      have hres : applyOp s (Op.loadNew p c parse idx) = { s with activeTabId := t.id } := by
        simp [applyOp, loadFileInNewTab, hext, hf]
      rw [hres]; exact hnd
    | none =>
      cases parse with
      | none =>
        have hres : applyOp s (Op.loadNew p c none idx) = s := by
          simp [applyOp, loadFileInNewTab, hext, hf]
        rw [hres]; exact hnd
      | some pat =>
        cases idx with
        | none =>
          have hres : applyOp s (Op.loadNew p c (some pat) none)
              = ⟨s.tabs ++ [⟨toString c, fileNameOf p, some p, some pat⟩], toString c⟩ := by
            simp [applyOp, loadFileInNewTab, hext, hf]
          rw [hres]
          simp only [ids, List.map_append, List.map_cons, List.map_nil]
          exact nodup_append_fresh _ _ hnd hnotin
        | some i =>
          by_cases hi : i ≤ s.tabs.length
          · have hres : applyOp s (Op.loadNew p c (some pat) (some i))
                = ⟨s.tabs.insertIdx i ⟨toString c, fileNameOf p, some p, some pat⟩,
                   toString c⟩ := by
              simp [applyOp, loadFileInNewTab, hext, hf, hi]
            rw [hres]
            have hperm : List.Perm
                ((s.tabs.insertIdx i ⟨toString c, fileNameOf p, some p, some pat⟩).map Tab.id)
                (toString c :: s.tabs.map Tab.id) :=
              (List.perm_insertIdx _ _ hi).map Tab.id
            simp only [ids]
            rw [hperm.nodup_iff]
            exact List.nodup_cons.mpr ⟨hnotin, hnd⟩
          · have hres : applyOp s (Op.loadNew p c (some pat) (some i))
                = ⟨s.tabs ++ [⟨toString c, fileNameOf p, some p, some pat⟩], toString c⟩ := by
              simp [applyOp, loadFileInNewTab, hext, hf, hi]
            rw [hres]
            simp only [ids, List.map_append, List.map_cons, List.map_nil]
            exact nodup_append_fresh _ _ hnd hnotin
  | close tid =>
    have hsub : List.Sublist ((s.tabs.filter (fun t => t.id != tid)).map Tab.id)
        (s.tabs.map Tab.id) :=
      (List.filter_sublist s.tabs).map Tab.id
    have hfil : ((s.tabs.filter (fun t => t.id != tid)).map Tab.id).Nodup :=
      hnd.sublist hsub
    by_cases hlen : s.tabs.length = 1
    · have hres : applyOp s (Op.close tid) = s := by simp [applyOp, closeTab, hlen]
      rw [hres]; exact hnd
    · by_cases hat : s.activeTabId = tid <;>
        simp [applyOp, closeTab, hlen, hat, ids, hfil]

/-- C9 (amended): provided every generated id is fresh — the clock value an
operation reads renders to an id not already in the tab list it executes
against — every sequence of session operations preserves pairwise-distinct
tab ids.  (Two creations in the same millisecond violate freshness and can
collide, as the counterexample shows.) -/
theorem tabIds_nodup_of_fresh (s : Session) (ops : List Op)
    (hnd : (ids s).Nodup) (hfresh : freshRun s ops = true) :
    (ids (applyOps s ops)).Nodup := by
  induction ops generalizing s with
  | nil => simpa [applyOps] using hnd
  | cons op rest ih =>
    simp only [freshRun, Bool.and_eq_true] at hfresh
    have hstep := applyOp_nodup s op hnd hfresh.1
    have : applyOps s (op :: rest) = applyOps (applyOp s op) rest := rfl
    rw [this]
    exact ih (applyOp s op) hstep hfresh.2

/-- Witness for C9's amended theorem: the initial session, one fresh load
into a new tab at index 0 followed by a fresh empty tab. -/
theorem tabIds_nodup_of_fresh_witness :
    (ids initialSession).Nodup ∧
    freshRun initialSession
      [Op.loadNew "a.dst" 7 (some ⟨[], none, 0, ⟨none, none, none⟩⟩) (some 0),
       Op.newTab 8] = true ∧
    (ids (applyOps initialSession
      [Op.loadNew "a.dst" 7 (some ⟨[], none, 0, ⟨none, none, none⟩⟩) (some 0),
       Op.newTab 8])).Nodup :=
  ⟨by decide, by decide,
   tabIds_nodup_of_fresh initialSession
     [Op.loadNew "a.dst" 7 (some ⟨[], none, 0, ⟨none, none, none⟩⟩) (some 0),
      Op.newTab 8] (by decide) (by decide)⟩

/-! ## Claim C10 -/

/-- C10: a load into the current tab modifies at most the tab that was
active at call time — a rejected extension or failed parse changes nothing;
a successful parse changes only the target tab's name, filePath and pattern
(ids, all other tabs, the tab count and the active id are unchanged); and a
resolved load whose target tab has been closed is discarded. -/
theorem loadFile_frame (s : Session) (path : String) (pat : Pattern)
    (parse : Option Pattern) (tabs' : List Tab) (a : String) :
    (extSupported path = false → loadFile s path parse = (s, false)) ∧
    (extSupported path = true → (∀ t ∈ s.tabs, ¬ t.filePath = some path) →
      loadFile s path none = (s, true)) ∧
    (extSupported path = true → (∀ t ∈ s.tabs, ¬ t.filePath = some path) →
      (loadFile s path (some pat)).1.activeTabId = s.activeTabId ∧
      (loadFile s path (some pat)).1.tabs
        = applyLoad s.tabs s.activeTabId path (fileNameOf path) pat) ∧
    (applyLoad tabs' a path (fileNameOf path) pat).length = tabs'.length ∧
    (∀ (i : ℕ) (h : i < tabs'.length)
        (h2 : i < (applyLoad tabs' a path (fileNameOf path) pat).length),
      (applyLoad tabs' a path (fileNameOf path) pat)[i]
        = if tabs'[i].id = a then updTab tabs'[i] path (fileNameOf path) pat
          else tabs'[i]) ∧
    (∀ t : Tab, (updTab t path (fileNameOf path) pat).id = t.id) ∧
    (a ∉ tabs'.map Tab.id → applyLoad tabs' a path (fileNameOf path) pat = tabs') := by
  refine ⟨?_, ?_, ?_, ?_, ?_, fun t => rfl, applyLoad_not_present tabs' a path _ pat⟩
  · intro hext
    simp [loadFile, hext]
  · intro hext hnone
    have hf : s.tabs.find? (fun t => t.filePath == some path) = none := by
      rw [List.find?_eq_none]
      intro t ht
      simpa using hnone t ht
    simp [loadFile, hext, hf]
  · intro hext hnone
    have hf : s.tabs.find? (fun t => t.filePath == some path) = none := by
      rw [List.find?_eq_none]
      intro t ht
      simpa using hnone t ht
    constructor <;> simp [loadFile, hext, hf]
  · simp [applyLoad]
  · intro i h h2
    simp [applyLoad]

/-- Witness for C10: a failed parse of `"a.dst"` against the initial
session leaves the session unchanged and reports the parser was called. -/
theorem loadFile_frame_witness :
    extSupported "a.dst" = true ∧
    loadFile initialSession "a.dst" none = (initialSession, true) :=
  ⟨by decide,
   (loadFile_frame initialSession "a.dst" ⟨[], none, 0, ⟨none, none, none⟩⟩
      none [] "x").2.1 (by decide) (by decide)⟩

end EmbroCAD
